import Mathlib

/-!
Verification of the watch measurement-tracking service (m-kadula/watch).

The repository's analytics core (`WatchLogFrame` / `LinearInterpolation` in
`backend/app/data_manipulation`, and `watch/log.py`) is not present in the
source tree; only its callers (`backend/app/main.py`, `watch/connector.py`)
are.  Those core operations are therefore modelled from the specification,
each such definition marked `Modelled from the spec:`.  The database layer is
embedded as explicit lists of rows with SQL clauses translated to
filter/sort operations.  Measured values (Python floats) are embedded as
exact rationals; timestamps are embedded as integers counting whole time
units (the gap-filling unit of the spec).
-/

namespace Watch

/-- One measurement row of a watch-log frame: the `id` is `some` a real log id
for rows that came from the database and `none` for synthesized
(interpolated) rows; `time` is the timestamp in whole time units; `measure`
is the logged value. -/
structure Record where
  id : Option Int
  time : Int
  measure : Rat
deriving DecidableEq

/-- A frame row together with the derived `difference` field produced by
`get_log_with_dif`; `none` marks the explicit absence of a prior value. -/
structure DifRecord where
  base : Record
  difference : Option Rat
deriving DecidableEq

/-- Modelled from the spec: `WatchLogFrame.from_table` (construction, spec
§4.1) — builds one row per input tuple `(log_id, timestamp, measure)` in
input order, without re-sorting.  Timestamp parsing is embedded as the
identity on the integer time unit. -/
def from_table (table : List (Int × Int × Rat)) : List Record :=
  table.map fun t => ⟨some t.1, t.2.1, t.2.2⟩

/-- Reading the rows of a frame back as a table of (id, time, value). -/
def toTable (f : List Record) : List (Option Int × Int × Rat) :=
  f.map fun r => (r.id, r.time, r.measure)

/-- Modelled from the spec: `WatchLogFrame.get_log_with_dif` (spec §4.2) —
row 0 gets `difference = none`; every row `i ≥ 1` gets
`difference = value[i] - value[i-1]` (the zip pairs row `i` of the tail with
row `i-1` of the full list). -/
def get_log_with_dif (f : List Record) : List DifRecord :=
  match f with
  | [] => []
  | r :: rs =>
      ⟨r, none⟩ :: (rs.zip f).map fun p => ⟨p.1, some (p.1.measure - p.2.measure)⟩

/-- Modelled from the spec: the `LinearInterpolation` strategy (spec §4.3) —
the estimated value at time `t` between known points `(t0, v0)` and
`(t1, v1)` is `v0 + (v1 - v0) * (t - t0) / (t1 - t0)`. -/
def interpValue (t0 : Int) (v0 : Rat) (t1 : Int) (v1 : Rat) (t : Int) : Rat :=
  v0 + (v1 - v0) * ((t : Rat) - (t0 : Rat)) / ((t1 : Rat) - (t0 : Rat))

/-- Modelled from the spec: the synthetic rows inserted between two adjacent
real records `r0` and `r1`: one row per missing whole time unit strictly
between them, carrying the sentinel id `none` and the linearly interpolated
value. -/
def gapRows (r0 r1 : Record) : List Record :=
  (List.range (r1.time - r0.time - 1).toNat).map fun (k : Nat) =>
    ⟨none, r0.time + (k : Int) + 1,
      interpValue r0.time r0.measure r1.time r1.measure (r0.time + (k : Int) + 1)⟩

/-- Modelled from the spec: `WatchLogFrame.fill` with the linear strategy
(spec §4.3) — between every two adjacent records insert the interpolated
rows for the missing units; fewer than 2 records are returned unchanged. -/
def fill : List Record → List Record
  | [] => []
  | [r] => [r]
  | r0 :: r1 :: rs => r0 :: (gapRows r0 r1 ++ fill (r1 :: rs))

/-- Strict ascending-time ordering between two rows. -/
def timeLt (a b : Record) : Prop := a.time < b.time

instance : DecidableRel timeLt := fun a b =>
  inferInstanceAs (Decidable (a.time < b.time))

/-- Two rows at most one time unit apart (a dense adjacency). -/
def gapLe1 (a b : Record) : Prop := b.time - a.time ≤ 1

instance : DecidableRel gapLe1 := fun a b =>
  inferInstanceAs (Decidable (b.time - a.time ≤ 1))

/-- Modelled from the spec: `average` (spec §4.4) — the arithmetic mean of
all values; the division by the row count is the failure trigger on an
empty series, which the caller guards (see `statsResponse`). -/
def averageOf (vals : List Rat) : Rat :=
  vals.sum / (vals.length : Rat)

/-- Modelled from the spec: the square of `standard_deviation` (spec §4.4,
§8) — the spec leaves population-vs-sample open in §4.4 but its numeric
oracle (≈12.909944 on [10,20,30,40], §8) pins the sample (N−1) convention,
so that is what is modelled.  The square is kept (a variance) so values stay
rational; the standard deviation itself is its square root.  On a one-row
series the spec (§7) declares the arithmetic well-defined; here the division
by `N−1 = 0` yields the rational convention `x / 0 = 0`. -/
def sampleVarianceOf (vals : List Rat) : Rat :=
  (vals.map fun v => (v - averageOf vals) ^ 2).sum / ((vals.length : Rat) - 1)

/-- The square of the population (divide by N) standard deviation, written
from the claim's words for comparison against the spec's numeric oracle. -/
def popVarianceOf (vals : List Rat) : Rat :=
  (vals.map fun v => (v - averageOf vals) ^ 2).sum / (vals.length : Rat)

/-- Modelled from the spec: `delta` (spec §4.4) — last value minus first
value; only applied to non-empty series by the endpoint. -/
def deltaOf (vals : List Rat) : Rat :=
  vals.getLast?.getD 0 - vals.head?.getD 0

/-- Modelled from the spec: the statistics block of the `/logs/stats`
endpoint (`main.py` lines 163–179) — fill the frame with the linear
strategy, then report average, deviation (here represented by its square,
`sampleVarianceOf`) and delta; when the filled series has zero rows the
division by the row count raises `ZeroDivisionError`, which the endpoint
translates into `none` for all three fields instead of an HTTP error. -/
def statsResponse (f : List Record) : Option Rat × Option Rat × Option Rat :=
  let vals := (fill f).map Record.measure
  if vals.length = 0 then (none, none, none)
  else (some (averageOf vals), some (sampleVarianceOf vals), some (deltaOf vals))

/-- One row of the `logs` table of the relational store. -/
structure LogRow where
  log_id : Int
  watch_id : Int
  cycle : Int
  timedate : Int
  measure : Rat
deriving DecidableEq

/-- The projection of a `logs` row that `WatchDB.data` returns to the core:
`Record(time=..., measure=..., id=...)` in `connector.py` line 205. -/
def rowRecord (r : LogRow) : Record :=
  ⟨some r.log_id, r.timedate, r.measure⟩

end Watch

namespace Watch.WatchDB

/-- The property `WatchDB.data` (`connector.py` lines 190–206): the SQL query
`SELECT log_id, timedate, measure FROM logs WHERE watch_id = ? AND cycle = ?
ORDER BY timedate`, embedded as filter-then-sort over the `logs` table, each
result row converted to a core `Record`. -/
def data (logs : List LogRow) (w c : Int) : List Record :=
  ((logs.filter fun r => r.watch_id == w && r.cycle == c).insertionSort
    fun a b => a.timedate ≤ b.timedate).map rowRecord

/-- The selection state and database of one `WatchDB` instance:
`self.watch` and `self.cycle` (`connector.py` lines 15–18) plus the
`watch_id` column of the `info` table and the `logs` table. -/
structure State where
  info : List Int
  logs : List LogRow
  watch : Option Int
  cycle : Option Int
deriving DecidableEq

/-- Constructor `WatchDB.__init__`: after construction no watch and no cycle is
selected. -/
def initial (info : List Int) (logs : List LogRow) : State :=
  ⟨info, logs, none, none⟩

/-- The query `SELECT MAX(cycle) FROM logs WHERE watch_id = ?` — `none` when the watch
has no logs. -/
def maxCycle (logs : List LogRow) (w : Int) : Option Int :=
  ((logs.filter fun r => r.watch_id == w).map LogRow.cycle).max?

/-- Operation `WatchDB.change_watch` (`connector.py` lines 82–94): when exactly one
`info` row carries the id, select the watch and set the cycle to the
watch's maximum cycle, or to 1 when the watch has no logs; otherwise a
`QueryError` is raised and the state is unchanged. -/
def change_watch (s : State) (i : Int) : State :=
  if (s.info.filter fun x => x == i).length = 1 then
    { s with watch := some i, cycle := some ((maxCycle s.logs i).getD 1) }
  else s

/-- Operation `WatchDB.change_cycle` (`connector.py` lines 96–104): requires a
selected watch (`NullWatchError` otherwise, state unchanged); selects the
cycle when some log row (of any watch — the query does not filter on
`watch_id`) has that cycle, else raises with the state unchanged. -/
def change_cycle (s : State) (n : Int) : State :=
  match s.watch with
  | none => s
  | some _ =>
      if 0 < (s.logs.filter fun r => r.cycle == n).length then
        { s with cycle := some n }
      else s

/-- Operation `WatchDB.new_cycle` (`connector.py` lines 122–127): requires a selected
watch; when the watch has no logs, `MAX(cycle)` is NULL and `count + 1`
raises a `TypeError` before any assignment, so the state is unchanged;
otherwise the cycle becomes max + 1. -/
def new_cycle (s : State) : State :=
  match s.watch with
  | none => s
  | some w =>
      match maxCycle s.logs w with
      | none => s
      | some m => { s with cycle := some (m + 1) }

/-- Operation `WatchDB.add_measure` (`connector.py` lines 129–142): requires a
selected watch; inserts one log row for the current watch and cycle.  The
selection fields are untouched. -/
def add_measure (s : State) (nextId t : Int) (m : Rat) : State :=
  match s.watch with
  | none => s
  | some w => { s with logs := s.logs ++ [⟨nextId, w, s.cycle.getD 0, t, m⟩] }

/-- Operation `WatchDB.del_current_watch` (`connector.py` lines 144–159): requires a
selected watch; deletes the watch's logs and its `info` row; when exactly
one `info` row was deleted the selection is reset to none/none, otherwise
`InternalBDError` is raised after the deletes but before the reset. -/
def del_current_watch (s : State) : State :=
  match s.watch with
  | none => s
  | some w =>
      let logs2 := s.logs.filter fun r => !(r.watch_id == w)
      let deleted := (s.info.filter fun x => x == w).length
      let info2 := s.info.filter fun x => !(x == w)
      if deleted = 1 then
        { info := info2, logs := logs2, watch := none, cycle := none }
      else { s with info := info2, logs := logs2 }

/-- Operation `WatchDB.del_current_cycle` (`connector.py` lines 161–166): requires a
selected watch; deletes the logs of the current watch and cycle (when the
cycle is NULL the SQL equality matches nothing), then re-runs
`change_watch` on the same watch id. -/
def del_current_cycle (s : State) : State :=
  match s.watch with
  | none => s
  | some w =>
      let logs2 :=
        match s.cycle with
        | none => s.logs
        | some c => s.logs.filter fun r => !(r.cycle == c && r.watch_id == w)
      change_watch { s with logs := logs2 } w

/-- The selected-watch/selected-cycle coherence invariant: no watch is
selected exactly when no cycle is selected. -/
def Coherent (s : State) : Prop :=
  s.watch = none ↔ s.cycle = none

instance (s : State) : Decidable (Coherent s) :=
  inferInstanceAs (Decidable (s.watch = none ↔ s.cycle = none))

end Watch.WatchDB

namespace Watch

/-- Python's `round` tie-breaking on the integers: round half to even. -/
def roundHalfEven (q : Rat) : Int :=
  if q - ⌊q⌋ < 1 / 2 then ⌊q⌋
  else if 1 / 2 < q - ⌊q⌋ then ⌊q⌋ + 1
  else if ⌊q⌋ % 2 = 0 then ⌊q⌋ else ⌊q⌋ + 1

/-- Python `round(x, 2)`: round to two decimal places, half to even, embedded over
exact rationals. -/
def round2 (q : Rat) : Rat :=
  (roundHalfEven (q * 100) : Rat) / 100

/-- The `/logs/add` endpoint (`main.py` lines 200–226): builds a `NewLog`
whose measure is `round(request.measure, 2)`, inserts it, and echoes the
stored row's measure in the response.  The insert is modelled as appending
the new row with the next id (the db layer is the spec's out-of-scope thin
CRUD); the result is the new `logs` table and the echoed measure. -/
def add_measurement (logs : List LogRow) (nextId watch_id cycle t : Int)
    (measure : Rat) : List LogRow × Rat :=
  let stored : LogRow := ⟨nextId, watch_id, cycle, t, round2 measure⟩
  (logs ++ [stored], stored.measure)

/-! ### Frame lemmas -/

theorem get_log_with_dif_length (f : List Record) :
    (get_log_with_dif f).length = f.length := by
  cases f with
  | nil => rfl
  | cons r rs =>
      simp only [get_log_with_dif, List.length_cons, List.length_map, List.length_zip]
      omega

theorem get_log_with_dif_getElem_succ (f : List Record) (i : Nat) (a b : Record)
    (ha : f[i]? = some a) (hb : f[i + 1]? = some b) :
    (get_log_with_dif f)[i + 1]? = some ⟨b, some (b.measure - a.measure)⟩ := by
  cases f with
  | nil => simp at ha
  | cons r rs =>
      have hb' : rs[i]? = some b := by simpa using hb
      have hzip : (rs.zip (r :: rs))[i]? = some (b, a) := by
        rw [List.getElem?_zip_eq_some]
        exact ⟨hb', ha⟩
      simp only [get_log_with_dif, List.getElem?_cons_succ, List.getElem?_map, hzip,
        Option.map_some']

/-- After `fill`, a non-empty frame still starts with its first record. -/
theorem fill_head (r : Record) (rs : List Record) :
    (fill (r :: rs)).head? = some r := by
  cases rs <;> rfl

theorem fill_eq_nil_iff (f : List Record) : fill f = [] ↔ f = [] := by
  cases f with
  | nil => simp [fill]
  | cons r rs =>
      constructor
      · intro h
        have := fill_head r rs
        rw [h] at this
        simp at this
      · intro h
        exact absurd h (List.cons_ne_nil r rs)

theorem gapRows_mem_time_id {r0 r1 x : Record} (hx : x ∈ gapRows r0 r1) :
    r0.time < x.time ∧ x.time < r1.time ∧ x.id = none := by
  simp only [gapRows, List.mem_map, List.mem_range] at hx
  obtain ⟨k, hk, rfl⟩ := hx
  dsimp only
  refine ⟨by omega, by omega, rfl⟩

theorem gapRows_chain (r0 r1 : Record) : List.Chain' timeLt (gapRows r0 r1) := by
  unfold gapRows
  rw [List.chain'_map]
  apply List.Pairwise.chain'
  refine List.Pairwise.imp ?_ (List.pairwise_lt_range _)
  intro a b hab
  simp only [timeLt]
  omega

theorem gapRows_eq_nil_of_dense {r0 r1 : Record} (h : r1.time - r0.time ≤ 1) :
    gapRows r0 r1 = [] := by
  unfold gapRows
  have : (r1.time - r0.time - 1).toNat = 0 := by omega
  simp [this]

/-- Applying `fill` keeps a strictly ascending (by time) frame strictly ascending. -/
theorem fill_chain : ∀ f : List Record, List.Chain' timeLt f →
    List.Chain' timeLt (fill f)
  | [], _ => by simp [fill]
  | [r], _ => by simp [fill]
  | r0 :: r1 :: rs, h => by
      rw [List.chain'_cons] at h
      have IH := fill_chain (r1 :: rs) h.2
      have hhead : (fill (r1 :: rs)).head? = some r1 := fill_head r1 rs
      show List.Chain' timeLt (r0 :: (gapRows r0 r1 ++ fill (r1 :: rs)))
      rw [List.chain'_cons', List.chain'_append]
      refine ⟨?_, gapRows_chain r0 r1, IH, ?_⟩
      · intro y hy
        rcases hg : gapRows r0 r1 with _ | ⟨g, gs⟩
        · rw [hg] at hy
          simp only [List.nil_append] at hy
          rw [hhead] at hy
          cases hy
          exact h.1
        · rw [hg] at hy
          simp only [List.cons_append, List.head?_cons, Option.mem_def,
            Option.some.injEq] at hy
          subst hy
          have hgmem : g ∈ gapRows r0 r1 := by
            rw [hg]; exact List.mem_cons_self g gs
          exact (gapRows_mem_time_id hgmem).1
      · intro x hx y hy
        rw [hhead] at hy
        cases hy
        have hxmem : x ∈ gapRows r0 r1 :=
          List.mem_of_mem_getLast? (by simpa using hx)
        exact (gapRows_mem_time_id hxmem).2.1

/-- Every interpolated row demanded by the spec is present in the filled
frame: if rows `a` and `b` are adjacent in the input and `t` lies strictly
between their times, the synthetic row at `t` with the linearly
interpolated value and the sentinel id is a member of the output. -/
theorem fill_mem_interp : ∀ (f : List Record) (i : Nat) (a b : Record) (t : Int),
    f[i]? = some a → f[i + 1]? = some b → a.time < t → t < b.time →
    (⟨none, t, interpValue a.time a.measure b.time b.measure t⟩ : Record) ∈ fill f
  | [], i, a, b, t, ha, _, _, _ => by simp at ha
  | [r], i, a, b, t, _, hb, _, _ => by
      rcases i with _ | i <;> simp at hb
  | r0 :: r1 :: rs, i, a, b, t, ha, hb, hlt, hgt => by
      show _ ∈ r0 :: (gapRows r0 r1 ++ fill (r1 :: rs))
      rcases i with _ | i
      · have ha' : a = r0 := by simpa using ha.symm
        have hb' : b = r1 := by simpa using hb.symm
        subst ha'; subst hb'
        refine List.mem_cons_of_mem _ (List.mem_append_left _ ?_)
        unfold gapRows
        rw [List.mem_map]
        refine ⟨(t - a.time - 1).toNat, ?_, ?_⟩
        · rw [List.mem_range]; omega
        · have ht : a.time + ((t - a.time - 1).toNat : Int) + 1 = t := by omega
          rw [ht]
      · have ha' : (r1 :: rs)[i]? = some a := by simpa using ha
        have hb' : (r1 :: rs)[i + 1]? = some b := by simpa using hb
        exact List.mem_cons_of_mem _ (List.mem_append_right _
          (fill_mem_interp (r1 :: rs) i a b t ha' hb' hlt hgt))

/-- On a dense frame (no gap above one time unit between adjacent rows)
`fill` is the identity. -/
theorem fill_dense : ∀ f : List Record, List.Chain' gapLe1 f → fill f = f
  | [], _ => rfl
  | [_], _ => rfl
  | r0 :: r1 :: rs, h => by
      rw [List.chain'_cons] at h
      show r0 :: (gapRows r0 r1 ++ fill (r1 :: rs)) = r0 :: r1 :: rs
      rw [gapRows_eq_nil_of_dense h.1, List.nil_append, fill_dense (r1 :: rs) h.2]

/-! ### WatchDB state-machine lemmas -/

namespace WatchDB

theorem coherent_initial (info : List Int) (logs : List LogRow) :
    Coherent (initial info logs) :=
  Iff.rfl

theorem coherent_change_watch (s : State) (i : Int) (h : Coherent s) :
    Coherent (change_watch s i) := by
  unfold change_watch
  split
  · simp [Coherent]
  · exact h

theorem coherent_change_cycle (s : State) (n : Int) (h : Coherent s) :
    Coherent (change_cycle s n) := by
  obtain ⟨info, logs, watch, cycle⟩ := s
  cases watch with
  | none => exact h
  | some w =>
      unfold change_cycle
      dsimp only
      split
      · simp [Coherent]
      · exact h

theorem coherent_new_cycle (s : State) (h : Coherent s) :
    Coherent (new_cycle s) := by
  obtain ⟨info, logs, watch, cycle⟩ := s
  cases watch with
  | none => exact h
  | some w =>
      unfold new_cycle
      dsimp only
      cases maxCycle logs w with
      | none => exact h
      | some m => simp [Coherent]

theorem coherent_add_measure (s : State) (nextId t : Int) (m : Rat)
    (h : Coherent s) : Coherent (add_measure s nextId t m) := by
  obtain ⟨info, logs, watch, cycle⟩ := s
  cases watch with
  | none => exact h
  | some w => simpa [add_measure, Coherent] using h

theorem coherent_del_current_watch (s : State) (h : Coherent s) :
    Coherent (del_current_watch s) := by
  obtain ⟨info, logs, watch, cycle⟩ := s
  cases watch with
  | none => exact h
  | some w =>
      unfold del_current_watch
      dsimp only
      split
      · simp [Coherent]
      · simp only [Coherent] at h ⊢
        simpa using h

theorem coherent_del_current_cycle (s : State) (h : Coherent s) :
    Coherent (del_current_cycle s) := by
  obtain ⟨info, logs, watch, cycle⟩ := s
  cases watch with
  | none => exact h
  | some w =>
      unfold del_current_cycle
      dsimp only
      apply coherent_change_watch
      simp only [Coherent] at h ⊢
      simpa using h

theorem change_watch_success (s : State) (i : Int)
    (h : (s.info.filter fun x => x == i).length = 1) :
    (change_watch s i).watch = some i ∧ (change_watch s i).cycle.isSome := by
  simp [change_watch, h]

theorem del_current_watch_success (s : State) (w : Int) (hw : s.watch = some w)
    (h : (s.info.filter fun x => x == w).length = 1) :
    (del_current_watch s).watch = none ∧ (del_current_watch s).cycle = none := by
  simp [del_current_watch, hw, h]

end WatchDB

/-! ### Concrete frames used by the spec's examples -/

/-- The spec's §8 gap example: two real records three units apart. -/
def demoGap : List Record := [⟨some 1, 0, 10⟩, ⟨some 2, 3, 40⟩]

/-- A fully dense frame whose values are the spec's §8 filled series. -/
def demoDense : List Record :=
  [⟨some 1, 0, 10⟩, ⟨some 2, 1, 20⟩, ⟨some 3, 2, 30⟩, ⟨some 4, 3, 40⟩]

/-- The spec's §8 filled value series. -/
def demoVals : List Rat := [10, 20, 30, 40]

/-! ### Claims -/

/-- C1: the statistics of `/logs/stats` are `none` exactly when the filled
measurement series has zero rows — each of average, deviation and delta
individually — and the response is always well-defined (`statsResponse` is
total, so no computational or HTTP error escapes); moreover the filled
series is empty exactly when the raw frame is. -/
theorem C1_stats_none_iff_empty (f : List Record) :
    ((statsResponse f).1 = none ↔ (fill f).length = 0) ∧
    ((statsResponse f).2.1 = none ↔ (fill f).length = 0) ∧
    ((statsResponse f).2.2 = none ↔ (fill f).length = 0) ∧
    ((fill f).length = 0 ↔ f.length = 0) := by
  have hnil : (fill f).length = 0 ↔ f.length = 0 := by
    rw [List.length_eq_zero, List.length_eq_zero, fill_eq_nil_iff]
  refine ⟨?_, ?_, ?_, hnil⟩
  all_goals
    by_cases h : ((fill f).map Record.measure).length = 0
    · simp only [statsResponse, if_pos h]
      simpa using h
    · simp only [statsResponse, if_neg h]
      simpa using h

/-- C2: `get_log_with_dif` returns a frame of the same length as its input;
the first row's `difference` is the explicit absence marker `none` (never
`0`); for every `i ≥ 1`, row `i`'s `difference` is `value[i] − value[i-1]`;
a length-0 frame yields no rows and a length-1 frame yields one row with
the difference absent. -/
theorem C2_get_log_with_dif_difference :
    (∀ f : List Record, (get_log_with_dif f).length = f.length) ∧
    (∀ (r : Record) (rs : List Record),
      (get_log_with_dif (r :: rs)).head? = some ⟨r, none⟩) ∧
    (∀ (f : List Record) (i : Nat) (a b : Record),
      f[i]? = some a → f[i + 1]? = some b →
      (get_log_with_dif f)[i + 1]? = some ⟨b, some (b.measure - a.measure)⟩) ∧
    get_log_with_dif ([] : List Record) = [] ∧
    (∀ r : Record, get_log_with_dif [r] = [⟨r, none⟩]) := by
  refine ⟨get_log_with_dif_length, ?_, get_log_with_dif_getElem_succ, rfl, ?_⟩
  · intro r rs
    rfl
  · intro r
    rfl

/-- Concrete run of C2 on a two-row frame: the second row's difference is
`25 − 10 = 15`. -/
theorem C2_witness :
    (get_log_with_dif [(⟨some 1, 0, 10⟩ : Record), ⟨some 2, 1, 25⟩])[1]? =
      some ⟨⟨some 2, 1, 25⟩, some 15⟩ := by
  have h := C2_get_log_with_dif_difference.2.2.1
    [(⟨some 1, 0, 10⟩ : Record), ⟨some 2, 1, 25⟩] 0 ⟨some 1, 0, 10⟩ ⟨some 2, 1, 25⟩
    rfl rfl
  norm_num at h
  exact h

/-- C3: on a frame sorted strictly ascending by time, `fill` with the
linear strategy keeps the rows strictly ascending (real and synthetic rows
interleaved); for every two adjacent input rows `(t0,v0)`, `(t1,v1)` and
every whole unit `t` strictly between them, the output contains the
synthetic row at `t` with value `v0 + (v1 − v0)·(t − t0)/(t1 − t0)` and the
sentinel id `none`, distinguishable from every real id `some _`; and on
`[(0,10),(3,40)]` the output is exactly the four rows 10, 20, 30, 40 at
times 0–3. -/
theorem C3_fill_linear_interpolation :
    (∀ f : List Record, List.Chain' timeLt f → List.Chain' timeLt (fill f)) ∧
    (∀ (f : List Record) (i : Nat) (a b : Record) (t : Int),
      f[i]? = some a → f[i + 1]? = some b → a.time < t → t < b.time →
      (⟨none, t, interpValue a.time a.measure b.time b.measure t⟩ : Record) ∈ fill f) ∧
    fill demoGap =
      [⟨some 1, 0, 10⟩, ⟨none, 1, 20⟩, ⟨none, 2, 30⟩, ⟨some 2, 3, 40⟩] := by
  refine ⟨fill_chain, fill_mem_interp, ?_⟩
  norm_num [demoGap, fill, gapRows, interpValue, show Int.toNat 2 = 2 from rfl,
    List.range_succ]

/-- Concrete run of C3 on the spec's gap example: the filled frame is
strictly ascending and contains the synthetic unit-1 row. -/
theorem C3_witness :
    List.Chain' timeLt (fill demoGap) ∧
    (⟨none, 1, interpValue 0 10 3 40 1⟩ : Record) ∈ fill demoGap := by
  constructor
  · exact C3_fill_linear_interpolation.1 demoGap
      (by norm_num [demoGap, List.chain'_cons, List.chain'_singleton, timeLt])
  · exact C3_fill_linear_interpolation.2.1 demoGap 0 ⟨some 1, 0, 10⟩ ⟨some 2, 3, 40⟩ 1
      rfl rfl (by decide) (by decide)

/-- C4: with fewer than 2 real records `fill` does not fail — it returns
the frame unchanged. -/
theorem C4_fill_short_unchanged (f : List Record) (h : f.length < 2) :
    fill f = f := by
  cases f with
  | nil => rfl
  | cons r rs =>
      cases rs with
      | nil => rfl
      | cons r1 rs1 => simp at h; omega

/-- Concrete run of C4 on a one-row frame. -/
theorem C4_witness : fill [(⟨some 5, 7, 3⟩ : Record)] = [⟨some 5, 7, 3⟩] :=
  C4_fill_short_unchanged [⟨some 5, 7, 3⟩] (by norm_num)

/-- C6: `fill` is the identity on an already-fully-dense frame: when no
adjacent gap exceeds one time unit, the output equals the input. -/
theorem C6_fill_dense_identity (f : List Record) (h : List.Chain' gapLe1 f) :
    fill f = f :=
  fill_dense f h

/-- Concrete run of C6 on the dense demo frame. -/
theorem C6_witness : fill demoDense = demoDense :=
  C6_fill_dense_identity demoDense
    (by norm_num [demoDense, List.chain'_cons, List.chain'_singleton, gapLe1])

/-- C7: round trip — building a frame from an N-row table with `from_table`
and immediately reading the rows back yields exactly N rows in input order
with id, time and value preserved exactly (values are embedded as exact
rationals, so nothing is lost). -/
theorem C7_from_table_roundtrip (table : List (Int × Int × Rat)) :
    (from_table table).length = table.length ∧
    toTable (from_table table) = table.map fun t => (some t.1, t.2.1, t.2.2) := by
  constructor
  · simp [from_table]
  · simp [from_table, toTable]

/-- C5 is false as stated: on the series [10,20,30,40] the population (÷N)
variance is 125, so no deviation within 0.01 of the claimed 12.909944 can
be the population standard deviation — 12.909944 is the sample (÷(N−1))
standard deviation, whose square is 500/3. -/
theorem C5_counterexample :
    popVarianceOf demoVals = 125 ∧
    ¬∃ d : Rat, d * d = popVarianceOf demoVals ∧ |d - 12909944 / 1000000| < 1 / 100 := by
  have h125 : popVarianceOf demoVals = 125 := by
    norm_num [popVarianceOf, averageOf, demoVals]
  refine ⟨h125, ?_⟩
  rintro ⟨d, hd, habs⟩
  rw [h125] at hd
  rw [abs_lt] at habs
  nlinarith [habs.1, habs.2, hd]

/-- C5 amended: for every frame whose filled series is non-empty the stats
are exactly the arithmetic mean, the sample (N−1) deviation (represented by
its square, the variance) and last-minus-first; on the filled series
[10,20,30,40] the average is 25, the delta 30 and the sample variance
500/3, whose square root is ≈ 12.909944 (the claimed value with the sample,
not population, convention). -/
theorem C5_statistics_values :
    (∀ f : List Record, fill f ≠ [] →
      statsResponse f =
        (some (averageOf ((fill f).map Record.measure)),
         some (sampleVarianceOf ((fill f).map Record.measure)),
         some (deltaOf ((fill f).map Record.measure)))) ∧
    averageOf demoVals = 25 ∧ deltaOf demoVals = 30 ∧
    sampleVarianceOf demoVals = 500 / 3 ∧
    |(12909944 / 1000000 : Rat) ^ 2 - 500 / 3| < 1 / 1000 := by
  refine ⟨?_, ?_, ?_, ?_, by rw [abs_lt]; constructor <;> norm_num⟩
  · intro f hf
    have h : ¬((fill f).map Record.measure).length = 0 := by
      simpa [List.length_eq_zero] using hf
    simp only [statsResponse, if_neg h]
  · norm_num [averageOf, demoVals]
  · have h1 : demoVals.getLast? = some 40 := rfl
    have h2 : demoVals.head? = some 10 := rfl
    simp only [deltaOf, h1, h2, Option.getD_some]
    norm_num
  · norm_num [sampleVarianceOf, averageOf, demoVals]

/-- Concrete run of C5 (amended) on the dense demo frame: the endpoint
reports average 25, variance 500/3 and delta 30. -/
theorem C5_witness :
    statsResponse demoDense = (some 25, some (500 / 3), some 30) := by
  have hfill : fill demoDense = demoDense :=
    fill_dense demoDense
      (by norm_num [demoDense, List.chain'_cons, List.chain'_singleton, gapLe1])
  have h := C5_statistics_values.1 demoDense (by rw [hfill]; simp [demoDense])
  have hm : demoDense.map Record.measure = demoVals := by
    norm_num [demoDense, demoVals]
  rw [h, hfill, hm, C5_statistics_values.2.1, C5_statistics_values.2.2.1,
    C5_statistics_values.2.2.2.1]

/-- C8: `WatchDB.data` returns exactly the logs of the selected watch and
cycle — a permutation of the rows of the `logs` table filtered to that
watch and cycle — sorted ascending by time, and every returned record
carries the log id, time and measure of such a row: the core's input
contract. -/
instance : IsTotal LogRow fun a b => a.timedate ≤ b.timedate :=
  ⟨fun a b => le_total a.timedate b.timedate⟩

instance : IsTrans LogRow fun a b => a.timedate ≤ b.timedate :=
  ⟨fun _ _ _ h1 h2 => le_trans h1 h2⟩

theorem C8_data_filtered_sorted (logs : List LogRow) (w c : Int) :
    List.Sorted (fun a b : Record => a.time ≤ b.time) (WatchDB.data logs w c) ∧
    (WatchDB.data logs w c).Perm
      ((logs.filter fun r => r.watch_id == w && r.cycle == c).map rowRecord) ∧
    (∀ x ∈ WatchDB.data logs w c,
      ∃ r ∈ logs, r.watch_id = w ∧ r.cycle = c ∧ rowRecord r = x) := by
  refine ⟨?_, ?_, ?_⟩
  · unfold WatchDB.data
    rw [List.Sorted, List.pairwise_map]
    have hs := List.sorted_insertionSort (fun a b : LogRow => a.timedate ≤ b.timedate)
      (logs.filter fun r => r.watch_id == w && r.cycle == c)
    exact hs.imp fun hab => hab
  · unfold WatchDB.data
    exact (List.perm_insertionSort _ _).map rowRecord
  · intro x hx
    unfold WatchDB.data at hx
    rw [List.mem_map] at hx
    obtain ⟨r, hr, rfl⟩ := hx
    rw [List.mem_insertionSort, List.mem_filter] at hr
    have h2 := hr.2
    simp only [Bool.and_eq_true, beq_iff_eq] at h2
    exact ⟨r, hr.1, h2.1, h2.2, rfl⟩

/-- C9: the selection coherence invariant — the selected watch is `none`
iff the selected cycle is `none` — holds after construction and is
preserved by every public operation (including their error paths, which
leave the selection untouched); a successful `change_watch` sets both and
a successful `del_current_watch` resets both to `none`. -/
theorem C9_selection_coherence :
    (∀ (info : List Int) (logs : List LogRow),
      WatchDB.Coherent (WatchDB.initial info logs)) ∧
    (∀ (s : WatchDB.State) (i : Int), WatchDB.Coherent s →
      WatchDB.Coherent (WatchDB.change_watch s i)) ∧
    (∀ (s : WatchDB.State) (n : Int), WatchDB.Coherent s →
      WatchDB.Coherent (WatchDB.change_cycle s n)) ∧
    (∀ s : WatchDB.State, WatchDB.Coherent s →
      WatchDB.Coherent (WatchDB.new_cycle s)) ∧
    (∀ (s : WatchDB.State) (nextId t : Int) (m : Rat), WatchDB.Coherent s →
      WatchDB.Coherent (WatchDB.add_measure s nextId t m)) ∧
    (∀ s : WatchDB.State, WatchDB.Coherent s →
      WatchDB.Coherent (WatchDB.del_current_watch s)) ∧
    (∀ s : WatchDB.State, WatchDB.Coherent s →
      WatchDB.Coherent (WatchDB.del_current_cycle s)) ∧
    (∀ (s : WatchDB.State) (i : Int),
      (s.info.filter fun x => x == i).length = 1 →
      (WatchDB.change_watch s i).watch = some i ∧
        (WatchDB.change_watch s i).cycle.isSome) ∧
    (∀ (s : WatchDB.State) (w : Int), s.watch = some w →
      (s.info.filter fun x => x == w).length = 1 →
      (WatchDB.del_current_watch s).watch = none ∧
        (WatchDB.del_current_watch s).cycle = none) :=
  ⟨WatchDB.coherent_initial, WatchDB.coherent_change_watch,
    WatchDB.coherent_change_cycle, WatchDB.coherent_new_cycle,
    WatchDB.coherent_add_measure, WatchDB.coherent_del_current_watch,
    WatchDB.coherent_del_current_cycle, WatchDB.change_watch_success,
    WatchDB.del_current_watch_success⟩

/-- Concrete run of C9: selecting watch 7 on a fresh database keeps the
invariant and sets both selection fields. -/
theorem C9_witness :
    WatchDB.Coherent (WatchDB.change_watch (WatchDB.initial [7] []) 7) ∧
    (WatchDB.change_watch (WatchDB.initial [7] []) 7).watch = some 7 := by
  constructor
  · exact C9_selection_coherence.2.1 (WatchDB.initial [7] []) 7 (by decide)
  · exact (C9_selection_coherence.2.2.2.2.2.2.2.1 (WatchDB.initial [7] []) 7
      (by decide)).1

/-- C10: `/logs/add` stores and echoes `round(measure, 2)` — the submitted
value rounded to two decimal places (half to even) — so two submissions
whose measures agree after rounding store identical values; the stored
value is not the raw submitted value when that value has more than two
decimals. -/
theorem C10_add_measurement_rounds :
    (∀ (logs : List LogRow) (nextId w c t : Int) (m : Rat),
      (add_measurement logs nextId w c t m).2 = round2 m ∧
      (add_measurement logs nextId w c t m).1.getLast? =
        some ⟨nextId, w, c, t, round2 m⟩) ∧
    (∀ (logs : List LogRow) (nextId w c t : Int) (m1 m2 : Rat),
      round2 m1 = round2 m2 →
      (add_measurement logs nextId w c t m1).2 =
        (add_measurement logs nextId w c t m2).2) ∧
    round2 (101 / 1000) ≠ (101 / 1000 : Rat) := by
  refine ⟨?_, ?_, ?_⟩
  · intro logs nextId w c t m
    exact ⟨rfl, by simp [add_measurement]⟩
  · intro logs nextId w c t m1 m2 h
    simp [add_measurement, h]
  · have hmul : (101 / 1000 : Rat) * 100 = 101 / 10 := by norm_num
    have hfloor : ⌊(101 / 10 : Rat)⌋ = 10 := by
      rw [Int.floor_eq_iff]
      norm_num
    have h1 : round2 (101 / 1000) = 1 / 10 := by
      rw [round2, roundHalfEven, hmul, hfloor]
      norm_num
    rw [h1]
    norm_num

/-- Concrete run of C10: 0.101 and 0.1009 both round to 0.10 and produce
the same echoed (stored) measure. -/
theorem C10_witness :
    (add_measurement [] 1 2 3 4 (101 / 1000)).2 =
      (add_measurement [] 1 2 3 4 (1009 / 10000)).2 := by
  apply C10_add_measurement_rounds.2.1
  have hmul1 : (101 / 1000 : Rat) * 100 = 101 / 10 := by norm_num
  have hmul2 : (1009 / 10000 : Rat) * 100 = 1009 / 100 := by norm_num
  have hfloor1 : ⌊(101 / 10 : Rat)⌋ = 10 := by
    rw [Int.floor_eq_iff]
    norm_num
  have hfloor2 : ⌊(1009 / 100 : Rat)⌋ = 10 := by
    rw [Int.floor_eq_iff]
    norm_num
  rw [round2, round2, roundHalfEven, roundHalfEven, hmul1, hmul2, hfloor1, hfloor2]
  norm_num

end Watch
